import Mathlib

/-!
Shallow embedding of the django-pagetree repository
(src/pagetree/models.py and src/pagetree/generic/models.py).

Conventions of the embedding:
* Python strings are modelled as lists of characters (`PyStr`).
* Database tables are modelled as Lean lists of rows; the ORM calls
  `get_or_create`, `save`, `delete` become explicit list transformations.
* Python exceptions (`Http404`, `TypeError`, Django ORM errors) are
  modelled with `Except PyError`.
* The treebeard materialized-path tree of `Section` rows is modelled as a
  rose tree (`SectionTree`); a hierarchy owns a forest of such trees.
-/

/-- A Python string: a sequence of characters. -/
abbrev PyStr := List Char

/-- The exceptions the embedded code can raise. -/
inductive PyError where
  /-- django.http.Http404, raised by Hierarchy.get_section_from_path. -/
  | http404 : PyError
  /-- Python TypeError; the payload names the offending keyword argument. -/
  | typeError : PyStr → PyError
  /-- Django MultipleObjectsReturned from `Section.objects.get`. -/
  | multipleObjectsReturned : PyError
  /-- placeholder for states the real ORM cannot reach. -/
  | internalError : PyError
deriving DecidableEq

/-- The scalar fields of one `Section` row (models.py: label, slug, plus
the treebeard-maintained depth and the database primary key). -/
structure SecData where
  id : Nat
  label : PyStr
  slug : PyStr
  depth : Nat
deriving DecidableEq

/-- One `PageBlock` row together with its generic content object, as far
as the claims need it: the row fields label and css_extra, and the content
object represented by its `display_name` (block_type) and its
block-specific exported fields. -/
structure BlockRec where
  label : PyStr
  css_extra : PyStr
  block_type : PyStr
  extra : List (PyStr × PyStr)
deriving DecidableEq

/-- A section together with its subtree: the treebeard materialized-path
tree restricted to one root.  Child order is the explicit sibling order. -/
inductive SectionTree where
  | node : SecData → List BlockRec → List SectionTree → SectionTree

/-- The `Section` row data at the root of a subtree. -/
def rootData : SectionTree → SecData
  | .node d _ _ => d

/-- treebeard `get_children`: the ordered child subtrees. -/
def childrenOf : SectionTree → List SectionTree
  | .node _ _ cs => cs

/-- The pageblocks attached to the root section of a subtree. -/
def blocksOf : SectionTree → List BlockRec
  | .node _ bs _ => bs

mutual
/-- treebeard `get_annotated_list` / `get_tree` order: the depth-first
(preorder) traversal of a section tree, node data only. -/
def dfs : SectionTree → List SecData
  | .node d _ cs => d :: dfsList cs

/-- Depth-first traversal of a forest, tree by tree. -/
def dfsList : List SectionTree → List SecData
  | [] => []
  | t :: ts => dfs t ++ dfsList ts
end

/-- Python `str.split(sep)` for a one-character separator (as used on
`path.split("/")` in `Hierarchy.find_section_from_path`). -/
def pySplit (sep : Char) : PyStr → List PyStr
  | [] => [ [] ]
  | c :: rest =>
    match pySplit sep rest with
    | [] => [ [] ]
    | s :: ss => if c = sep then [] :: s :: ss else (c :: s) :: ss

/-- The dictionary lookup in `find_section_from_path`: the loop
`for c in current.get_children(): slugs[c.slug] = c` followed by
`slugs[slug]` — the last child with a given slug wins. -/
def childSlugLookup (cs : List SectionTree) (sl : PyStr) : Option SectionTree :=
  cs.foldl (fun acc c => if (rootData c).slug = sl then some c else acc) none

/-- The slug-following loop of `Hierarchy.find_section_from_path`. -/
def sectionWalk : SectionTree → List PyStr → Option SectionTree
  | cur, [] => some cur
  | cur, sl :: rest =>
    match childSlugLookup (childrenOf cur) sl with
    | some c => sectionWalk c rest
    | none => none

/-- `Hierarchy.find_section_from_path` (models.py lines 50-65): strip one
trailing slash, return the root on the empty path, otherwise follow the
slugs of the split path through the children. -/
def Hierarchy.find_section_from_path (root : SectionTree) (path : PyStr) : Option SectionTree :=
  let path2 := if path.getLast? = some '/' then path.dropLast else path
  if path2 = [] then some root
  else sectionWalk root (pySplit '/' path2)

/-- `Hierarchy.get_section_from_path` (models.py lines 67-71): raise
Http404 when no section resolves, return the section otherwise. -/
def Hierarchy.get_section_from_path (root : SectionTree) (path : PyStr) :
    Except PyError SectionTree :=
  match Hierarchy.find_section_from_path root path with
  | none => .error PyError.http404
  | some s => .ok s

/-- treebeard `MP_Node.is_root`: a node is a root exactly when its
materialized-path depth is 1. -/
def SecData.is_root (d : SecData) : Bool := d.depth == 1

/-- The enumerate-and-compare loop shared by `Section.get_previous` and
`Section.get_next`: index of the first traversal entry whose id equals the
id of `self`, starting the count at `i`. -/
def scanForId (selfId : Nat) : Nat → List SecData → Option Nat
  | _, [] => none
  | i, d :: rest => if d.id = selfId then some i else scanForId selfId (i + 1) rest

/-- `Section.get_next` (models.py lines 175-185): the entry after `self`
in the depth-first traversal of the tree, or None at the end. -/
def Section.get_next (root : SectionTree) (selfId : Nat) : Option SecData :=
  let t := dfs root
  match scanForId selfId 0 t with
  | none => none
  | some i => if i < t.length - 1 then t[i + 1]? else none

/-- `Section.get_previous` (models.py lines 162-173): the entry before
`self` in the depth-first traversal, unless there is none, it is at
index 0, or it is the root. -/
def Section.get_previous (root : SectionTree) (selfId : Nat) : Option SecData :=
  let t := dfs root
  match scanForId selfId 0 t with
  | none => none
  | some i =>
    match t[i - 1]? with
    | none => none
    | some prev => if 1 < i ∧ ¬prev.is_root = true then some prev else none

mutual
/-- Well-formedness of the treebeard depth field: the root of the tree
carries depth `n` and children carry the depth of their parent plus 1. -/
def wfDepth (n : Nat) : SectionTree → Bool
  | .node d _ cs => d.depth == n && wfDepthList (n + 1) cs

/-- `wfDepth` for every tree of a list of subtrees. -/
def wfDepthList (n : Nat) : List SectionTree → Bool
  | [] => true
  | t :: ts => wfDepth n t && wfDepthList n ts
end

/-- `Section.get_absolute_url` (models.py lines 201-204).  A non-root
section is represented by the list of `Section` rows from itself up to,
but excluding, the root (its `get_parent` chain); the root itself is the
empty list.  The recursion mirrors the source: the root returns the
hierarchy base_url, any other section returns the url of its parent
followed by its own slug and a slash. -/
def Section.get_absolute_url (base_url : PyStr) : List SecData → PyStr
  | [] => base_url
  | d :: rest => Section.get_absolute_url base_url rest ++ d.slug ++ [ '/' ]

/-- `Hierarchy.get_root` (models.py lines 39-45) over the forest of
section trees stored for the hierarchy.  `Section.objects.get(hierarchy,
label="Root")` finds the unique section labeled "Root" (DoesNotExist is
caught and a fresh root is added; MultipleObjectsReturned propagates),
and `.get_root()` returns the root of the tree containing it.  The
primary key of a freshly added root is irrelevant to the claims and is
modelled as 0. -/
def Hierarchy.get_root (forest : List SectionTree) :
    Except PyError (SectionTree × List SectionTree) :=
  match (dfsList forest).filter (fun d => d.label == "Root".toList) with
  | [] =>
    let r : SectionTree := .node ⟨0, "Root".toList, [], 1⟩ [] []
    .ok (r, forest ++ [ r ])
  | [ _ ] =>
    match forest.find? (fun t => (dfs t).any (fun d => d.label == "Root".toList)) with
    | some t => .ok (t, forest)
    | none => .error PyError.internalError
  | _ => .error PyError.multipleObjectsReturned

/-- The state invariant under which `Hierarchy.get_root` is used: every
section labeled "Root" is the root of its tree and has the empty slug
(roots are only ever created by `get_root` and `add_section_from_dict`,
both with label "Root" and slug ""). -/
def RootInv (forest : List SectionTree) : Prop :=
  ∀ t ∈ forest, ∀ d ∈ dfs t, d.label = "Root".toList →
    rootData t = d ∧ d.slug = []

/-- One pageblock of a section as `Section.submit` and `Section.reset`
see it: the database id of the PageBlock row, whether the content object
has the `needs_submit` / `redirect_to_self_on_submit` attributes
(`hasattr`), and what those methods return when present. -/
structure Block where
  id : Nat
  has_needs_submit : Bool
  needs_submit : Bool
  has_redirect : Bool
  redirect_to_self : Bool
deriving DecidableEq

/-- A form-encoded request payload (django QueryDict): keys in order,
each with its list of values. -/
abbrev RequestData := List (PyStr × List PyStr)

/-- A value stored in the per-block `data` dict built by
`Section.submit`: `request_data[k]` gives a single scalar string,
`request_data.getlist(k)` a list of strings. -/
inductive SubmitVal where
  | single : PyStr → SubmitVal
  | multi : List PyStr → SubmitVal
deriving DecidableEq

/-- django `QueryDict.__getitem__`: the last value of the value list
(the empty string list cannot occur where the source uses it, the
default is arbitrary). -/
def qdGetItem (vs : List PyStr) : PyStr := (vs.getLast?).getD []

/-- The key string `"pageblock-%d-" % p.id` used by `Section.submit`. -/
def pageblockKeyHead (bid : Nat) : PyStr :=
  "pageblock-".toList ++ (toString bid).toList ++ [ '-' ]

/-- Python dict assignment `d[k] = v`: replace the value when the key is
present, append the binding otherwise. -/
def pyDictSet (d : List (PyStr × SubmitVal)) (k : PyStr) (v : SubmitVal) :
    List (PyStr × SubmitVal) :=
  if d.any (fun e => e.1 == k) then
    d.map (fun e => if e.1 == k then (k, v) else e)
  else d ++ [ (k, v) ]

/-- One iteration of the `for k in request_data.keys()` loop of
`Section.submit` (models.py lines 288-295): a key carrying the block's
key head contributes its stripped key, with a single value passed as a
scalar and several values as a list. -/
def dictStep (bid : Nat) (data : List (PyStr × SubmitVal)) (kv : PyStr × List PyStr) :
    List (PyStr × SubmitVal) :=
  if (pageblockKeyHead bid).isPrefixOf kv.1 then
    pyDictSet data (kv.1.drop (pageblockKeyHead bid).length)
      (if kv.2.length = 1 then SubmitVal.single (qdGetItem kv.2)
       else SubmitVal.multi kv.2)
  else data

/-- The inner loop of `Section.submit` (models.py lines 287-295): build
the per-block `data` dict from the request entries that carry the
block's key head. -/
def buildBlockData (bid : Nat) (rd : RequestData) : List (PyStr × SubmitVal) :=
  rd.foldl (dictStep bid) []

/-- One iteration of the `for p in self.pageblock_set.all()` loop of
`Section.submit`: when the block has `needs_submit` and it returns True,
its `submit(user, data)` is called (recorded in the second component)
and, when the block has `redirect_to_self_on_submit`, `proceed` is
overwritten with its negation. -/
def submitStep (rd : RequestData)
    (acc : Bool × List (Nat × List (PyStr × SubmitVal))) (p : Block) :
    Bool × List (Nat × List (PyStr × SubmitVal)) :=
  if p.has_needs_submit && p.needs_submit then
    (if p.has_redirect then !p.redirect_to_self else acc.1,
     acc.2 ++ [ (p.id, buildBlockData p.id rd) ])
  else acc

/-- `Section.submit` (models.py lines 280-302).  Returns the `proceed`
boolean and, as an observation of the side effects, the list of
`p.block().submit(user, data)` calls made: which block ids were
submitted, in order, with which data dict. -/
def Section.submit (blocks : List Block) (rd : RequestData) :
    Bool × List (Nat × List (PyStr × SubmitVal)) :=
  blocks.foldl (submitStep rd) (true, [])

/-- The dispatch described by claim C4, stated declaratively: block `bid`
receives exactly the request entries whose key starts with
`pageblock-<bid>-`, with the key head stripped, single-valued entries as
scalars and multi-valued entries as lists. -/
def submitDataSpec (bid : Nat) (rd : RequestData) : List (PyStr × SubmitVal) :=
  rd.filterMap
    (fun kv =>
      if (pageblockKeyHead bid).isPrefixOf kv.1 then
        some (kv.1.drop (pageblockKeyHead bid).length,
          if kv.2.length = 1 then SubmitVal.single (qdGetItem kv.2)
          else SubmitVal.multi kv.2)
      else none)

/-- One `PageBlock` row of one section, as far as the ordinality claims
need it: the database id, the `ordinality` field and the `label`.  The
generic content-object reference does not bear on ordinality. -/
structure PB where
  id : Nat
  ordinality : Nat
  label : PyStr
deriving DecidableEq

/-- Insertion of a row into a list sorted by ordinality. -/
def insertByOrd (b : PB) : List PB → List PB
  | [] => [ b ]
  | c :: cs => if b.ordinality ≤ c.ordinality then b :: c :: cs
               else c :: insertByOrd b cs

/-- `self.pageblock_set.all()`: the section's PageBlock rows ordered by
the model Meta `ordering = ('section', 'ordinality')`. -/
def pageblockSetAll : List PB → List PB
  | [] => []
  | b :: bs => insertByOrd b (pageblockSetAll bs)

/-- `Section.append_pageblock` (models.py lines 192-196): create a new
PageBlock row whose ordinality is the current row count plus 1. -/
def Section.append_pageblock (l : List PB) (bid : Nat) (lbl : PyStr) : List PB :=
  l ++ [ ⟨bid, l.length + 1, lbl⟩ ]

/-- The counting loop of `Section.renumber_pageblocks`, starting at `i`. -/
def renumberFrom (i : Nat) : List PB → List PB
  | [] => []
  | b :: bs => { b with ordinality := i } :: renumberFrom (i + 1) bs

/-- `Section.renumber_pageblocks` (models.py lines 216-221): walk the
rows in ordinality order and assign ordinalities 1, 2, 3, ... -/
def Section.renumber_pageblocks (l : List PB) : List PB :=
  renumberFrom 1 (pageblockSetAll l)

/-- `PageBlock.delete` (models.py lines 442-445): delete the row, then
renumber the remaining rows of its section. -/
def PageBlock.delete (bid : Nat) (l : List PB) : List PB :=
  Section.renumber_pageblocks (l.eraseP (fun b => b.id == bid))

/-- The ordinality invariant of claim C3: the ordinalities of a
section's rows are, up to order, exactly 1..N. -/
def contiguousOrds (l : List PB) : Prop :=
  (l.map PB.ordinality).Perm (List.range' 1 l.length)

/-- One entry of `settings.PAGEBLOCKS` as `available_pageblocks` returns
it: a pageblock model class with its `display_name` and whether it has a
`create_from_dict` classmethod. -/
structure PBClass where
  display_name : PyStr
  has_create_from_dict : Bool
deriving DecidableEq

/-- The dictionary `PageBlock.as_dict` produces (models.py lines
447-454): the block-specific fields from the content object's own
as_dict, plus label, css_extra and block_type. -/
structure BlockDict where
  label : PyStr
  css_extra : PyStr
  block_type : PyStr
  extra : List (PyStr × PyStr)
deriving DecidableEq

/-- The nested dictionary `Section.as_dict` produces (models.py lines
304-310): label, slug, pageblocks, children. -/
inductive SecDict where
  | mk : PyStr → PyStr → List BlockDict → List SecDict → SecDict

/-- The label entry of a section dictionary. -/
def SecDict.label : SecDict → PyStr
  | .mk l _ _ _ => l

/-- The slug entry of a section dictionary. -/
def SecDict.slug : SecDict → PyStr
  | .mk _ s _ _ => s

/-- The pageblocks entry of a section dictionary. -/
def SecDict.pageblocks : SecDict → List BlockDict
  | .mk _ _ pbs _ => pbs

/-- The children entry of a section dictionary. -/
def SecDict.children : SecDict → List SecDict
  | .mk _ _ _ cs => cs

/-- The dictionary `Hierarchy.as_dict` produces (models.py lines 89-92):
name, base_url, sections. -/
structure HierDict where
  name : PyStr
  base_url : PyStr
  sections : List SecDict

/-- A hierarchy row together with the section trees stored for it. -/
structure Hierarchy where
  name : PyStr
  base_url : PyStr
  forest : List SectionTree

/-- `PageBlock.as_dict`: export the content object's fields and set
label, css_extra and block_type. -/
def PageBlock.as_dict (b : BlockRec) : BlockDict :=
  ⟨b.label, b.css_extra, b.block_type, b.extra⟩

mutual
/-- `Section.as_dict` (models.py lines 304-310). -/
def Section.as_dict : SectionTree → SecDict
  | .node d bs cs => SecDict.mk d.label d.slug (bs.map PageBlock.as_dict) (sectionsAsDicts cs)

/-- `as_dict` of each child, in sibling order. -/
def sectionsAsDicts : List SectionTree → List SecDict
  | [] => []
  | t :: ts => Section.as_dict t :: sectionsAsDicts ts
end

/-- `Hierarchy.as_dict` (models.py lines 89-92): name, base_url, and the
dict of the root section (which `get_root` may have to create). -/
def Hierarchy.as_dict (h : Hierarchy) : Except PyError HierDict :=
  match Hierarchy.get_root h.forest with
  | .error e => .error e
  | .ok (r, _) => .ok ⟨h.name, h.base_url, [ Section.as_dict r ]⟩

/-- The parameters of `def append_pageblock(self, label, content_object)`
(models.py line 192), `self` excluded. -/
def append_pageblock_params : List PyStr :=
  [ "label".toList, "content_object".toList ]

/-- Python keyword-argument binding: calling a function with a keyword
that names no parameter raises `TypeError: ... got an unexpected keyword
argument ...`. -/
def pyCheckKwargs (params kwargs : List PyStr) : Except PyError Unit :=
  match kwargs.find? (fun k => !(params.contains k)) with
  | some k => .error (PyError.typeError k)
  | none => .ok ()

/-- django `slugify`, modelled for ASCII input: lowercase, keep
alphanumerics, turn spaces into hyphens (external to the repository;
no claim depends on its details — it is only reached by
`append_child` when a child dictionary carries an empty slug). -/
def slugify (str : PyStr) : PyStr :=
  (str.map Char.toLower).filterMap
    (fun c => if c.isAlphanum then some c else if c = ' ' then some '-' else none)

/-- The `for pb_class in self.available_pageblocks()` loop of
`Section.add_pageblock_from_dict` (models.py lines 312-322).  For every
available class whose display_name matches the dict's block_type and
that has `create_from_dict`, the source calls
`self.append_pageblock(label=..., css_extra=..., content_object=block)`;
the keyword binding against `append_pageblock_params` is checked as
Python does.  On success the loop would collect the created blocks. -/
def addPageblockLoop (d : BlockDict) : List PBClass → Except PyError (List BlockRec)
  | [] => .ok []
  | c :: cs =>
    if c.display_name = d.block_type then
      if c.has_create_from_dict then
        match pyCheckKwargs append_pageblock_params
            [ "label".toList, "css_extra".toList, "content_object".toList ] with
        | .error e => .error e
        | .ok _ =>
          match addPageblockLoop d cs with
          | .error e => .error e
          | .ok rest => .ok (⟨d.label, d.css_extra, d.block_type, d.extra⟩ :: rest)
      else addPageblockLoop d cs
    else addPageblockLoop d cs

/-- `Section.add_pageblock_from_dict` (models.py lines 312-322). -/
def Section.add_pageblock_from_dict (avail : List PBClass) (d : BlockDict) :
    Except PyError (List BlockRec) :=
  addPageblockLoop d avail

/-- `add_pageblock_from_dict` for each pageblock dictionary in order,
collecting the created blocks; the first exception aborts. -/
def blocksFromDicts (avail : List PBClass) : List BlockDict → Except PyError (List BlockRec)
  | [] => .ok []
  | d :: ds =>
    match Section.add_pageblock_from_dict avail d with
    | .error e => .error e
    | .ok bs =>
      match blocksFromDicts avail ds with
      | .error e => .error e
      | .ok rest => .ok (bs ++ rest)

mutual
/-- `Section.add_child_section_from_dict` (models.py lines 324-329):
`append_child` (slugifying the label when the slug is empty), then the
pageblocks, then the children; `dep` is the treebeard depth of the new
child. -/
def Section.add_child_section_from_dict (avail : List PBClass) (dep : Nat) :
    SecDict → Except PyError SectionTree
  | .mk lbl slg pbs cs =>
    match blocksFromDicts avail pbs with
    | .error e => .error e
    | .ok bs =>
      match sectionChildrenFromDicts avail (dep + 1) cs with
      | .error e => .error e
      | .ok ts => .ok (.node ⟨0, lbl, if slg = [] then slugify lbl else slg, dep⟩ bs ts)

/-- `add_child_section_from_dict` for each child dictionary in order. -/
def sectionChildrenFromDicts (avail : List PBClass) (dep : Nat) :
    List SecDict → Except PyError (List SectionTree)
  | [] => .ok []
  | d :: ds =>
    match Section.add_child_section_from_dict avail dep d with
    | .error e => .error e
    | .ok t =>
      match sectionChildrenFromDicts avail dep ds with
      | .error e => .error e
      | .ok ts => .ok (t :: ts)
end

/-- `Hierarchy.add_section_from_dict` (models.py lines 94-100): add a
root labeled "Root" with empty slug, then the dict's pageblocks, then
its children. -/
def Hierarchy.add_section_from_dict (avail : List PBClass) (d : SecDict) :
    Except PyError SectionTree :=
  match blocksFromDicts avail d.pageblocks with
  | .error e => .error e
  | .ok bs =>
    match sectionChildrenFromDicts avail 2 d.children with
    | .error e => .error e
    | .ok ts => .ok (.node ⟨0, "Root".toList, [], 1⟩ bs ts)

/-- `add_section_from_dict` for each section dictionary in order. -/
def sectionsFromDicts (avail : List PBClass) : List SecDict → Except PyError (List SectionTree)
  | [] => .ok []
  | d :: ds =>
    match Hierarchy.add_section_from_dict avail d with
    | .error e => .error e
    | .ok t =>
      match sectionsFromDicts avail ds with
      | .error e => .error e
      | .ok ts => .ok (t :: ts)

/-- `Hierarchy.from_dict` (models.py lines 102-108): create the
hierarchy row, then add each section dictionary. -/
def Hierarchy.from_dict (avail : List PBClass) (d : HierDict) : Except PyError Hierarchy :=
  match sectionsFromDicts avail d.sections with
  | .error e => .error e
  | .ok forest => .ok ⟨d.name, d.base_url, forest⟩

/-- The round trip of claim C2: export a hierarchy with `as_dict` and
rebuild it with `from_dict`. -/
def hierRoundTrip (avail : List PBClass) (h : Hierarchy) : Except PyError Hierarchy :=
  match Hierarchy.as_dict h with
  | .error e => .error e
  | .ok d => Hierarchy.from_dict avail d

/-- The user object handed to the per-user-state methods: the database
id and the result of `user.is_anonymous()`. -/
structure PyUser where
  id : Nat
  anonymous : Bool
deriving DecidableEq

/-- `user.is_anonymous()`. -/
def PyUser.is_anonymous (u : PyUser) : Bool := u.anonymous

/-- A `UserLocation` row (models.py lines 457-461): user, hierarchy and
the current path, whose model default is "/". -/
structure UserLocation where
  user : Nat
  hierarchy : Nat
  path : PyStr
deriving DecidableEq

/-- A `UserPageVisit` row (models.py lines 464-470): user, section
(field `sec`, since `section` is a reserved word here) and the status
string, whose model default is "incomplete".  The two timestamp fields
are maintained by the database clock and carry no claim. -/
structure UserPageVisit where
  user : Nat
  sec : Nat
  status : PyStr
deriving DecidableEq

/-- django `Model.objects.get_or_create`: return the first row matching
the predicate when one exists, otherwise append a freshly created row
built from the lookup fields and the model defaults. -/
def getOrCreateRow {α : Type} (p : α → Bool) (new : α) (l : List α) : α × List α :=
  match l.find? p with
  | some r => (r, l)
  | none => (new, l ++ [ new ])

/-- django `instance.save()` after mutating an attribute: replace the
(first, by primary key unique) row matching the predicate with its
updated version. -/
def setFirstMatching {α : Type} (p : α → Bool) (f : α → α) : List α → List α
  | [] => []
  | r :: rs => if p r then f r :: rs else r :: setFirstMatching p f rs

/-- The row predicate of `UserLocation.objects.get_or_create(user=user,
hierarchy=self)`. -/
def ulMatch (uid hid : Nat) (r : UserLocation) : Bool :=
  r.user == uid && r.hierarchy == hid

/-- `Hierarchy.get_user_location` (models.py lines 110-116): "/" for an
anonymous user without touching the table, otherwise get_or_create and
return the row's path.  The result pairs the returned path with the
table after the call. -/
def Hierarchy.get_user_location (st : List UserLocation) (u : PyUser) (hid : Nat) :
    PyStr × List UserLocation :=
  if u.is_anonymous then ( "/".toList, st)
  else
    let p := getOrCreateRow (ulMatch u.id hid) ⟨u.id, hid, "/".toList⟩ st
    (p.1.path, p.2)

/-- `Hierarchy.user_visit` (models.py lines 122-128): get_or_create the
(user, hierarchy) row, set its path to the section's url, save. -/
def Hierarchy.user_visit (st : List UserLocation) (uid hid : Nat) (path : PyStr) :
    List UserLocation :=
  setFirstMatching (ulMatch uid hid) (fun r => { r with path := path })
    (getOrCreateRow (ulMatch uid hid) ⟨uid, hid, "/".toList⟩ st).2

/-- The row predicate of `UserPageVisit.objects.get_or_create(
section=self, user=user)`. -/
def upvMatch (uid sid : Nat) (r : UserPageVisit) : Bool :=
  r.user == uid && r.sec == sid

/-- `Section.user_pagevisit` (models.py lines 334-339): get_or_create
the (user, section) row, set its status, save. -/
def Section.user_pagevisit (st : List UserPageVisit) (uid sid : Nat) (status : PyStr) :
    List UserPageVisit :=
  setFirstMatching (upvMatch uid sid) (fun r => { r with status := status })
    (getOrCreateRow (upvMatch uid sid) ⟨uid, sid, "incomplete".toList⟩ st).2

/-- The lookup key of a `UserLocation` row: the (user, hierarchy) pair. -/
def ulKey (r : UserLocation) : Nat × Nat := (r.user, r.hierarchy)

/-- The lookup key of a `UserPageVisit` row: the (user, section) pair. -/
def upvKey (r : UserPageVisit) : Nat × Nat := (r.user, r.sec)

/-- At most one `UserLocation` row per (user, hierarchy). -/
def ulAtMostOne (st : List UserLocation) : Prop :=
  List.Pairwise (fun a b => ulKey a ≠ ulKey b) st

/-- At most one `UserPageVisit` row per (user, section). -/
def upvAtMostOne (st : List UserPageVisit) : Prop :=
  List.Pairwise (fun a b => upvKey a ≠ upvKey b) st

/-- No row is deleted: every (user, hierarchy) pair present before is
still present afterwards. -/
def ulKeysKept (st st2 : List UserLocation) : Prop :=
  ∀ r ∈ st, ∃ r2 ∈ st2, ulKey r2 = ulKey r

/-- No row is deleted: every (user, section) pair present before is
still present afterwards. -/
def upvKeysKept (st st2 : List UserPageVisit) : Prop :=
  ∀ r ∈ st, ∃ r2 ∈ st2, upvKey r2 = upvKey r

instance (forest : List SectionTree) : Decidable (RootInv forest) := by
  unfold RootInv; infer_instance

instance (l : List PB) : Decidable (contiguousOrds l) := by
  unfold contiguousOrds; infer_instance

instance (st : List UserLocation) : Decidable (ulAtMostOne st) := by
  unfold ulAtMostOne; infer_instance

instance (st : List UserPageVisit) : Decidable (upvAtMostOne st) := by
  unfold upvAtMostOne; infer_instance

/-- Fixture for C1: a submittable block that redirects to self. -/
def exC1blockA : Block := ⟨1, true, true, true, true⟩

/-- Fixture for C1: a submittable block, after the first, that does not
redirect to self. -/
def exC1blockB : Block := ⟨2, true, true, true, false⟩

/-- Fixture for C2: a root section carrying one pageblock. -/
def exC2root : SectionTree :=
  .node ⟨1, "Root".toList, [], 1⟩
    [ ⟨ "intro".toList, "big".toList, "text block".toList, [] ⟩ ] []

/-- Fixture for C2: a hierarchy whose root has one pageblock. -/
def exC2hier : Hierarchy := ⟨ "main".toList, "/".toList, [ exC2root ]⟩

/-- Fixture for C2: the available pageblock classes; "text block" has a
`create_from_dict` classmethod. -/
def exC2avail : List PBClass := [ ⟨ "text block".toList, true ⟩ ]

/-- Fixture for C5: a tree with root (id 1), a first child (id 2) with
one grandchild (id 4), and a second child (id 3). -/
def exC5tree : SectionTree :=
  .node ⟨1, "Root".toList, [], 1⟩ []
    [ .node ⟨2, "One".toList, "one".toList, 2⟩ []
        [ .node ⟨4, "Deep".toList, "deep".toList, 3⟩ [] [] ],
      .node ⟨3, "Two".toList, "two".toList, 2⟩ [] [] ]

/-- Fixture for C6: a forest holding one root section. -/
def exC6forest : List SectionTree := [ .node ⟨1, "Root".toList, [], 1⟩ [] [] ]

/-- Fixture for C8: a root with one child of slug "b". -/
def exC8tree : SectionTree :=
  .node ⟨1, "Root".toList, [], 1⟩ []
    [ .node ⟨2, "B".toList, "b".toList, 2⟩ [] [] ]

/-- Fixture for C9: a root with one child of slug "a". -/
def exC9tree : SectionTree :=
  .node ⟨1, "Root".toList, [], 1⟩ []
    [ .node ⟨2, "A".toList, "a".toList, 2⟩ [] [] ]

/-- Claim C1 (code bug evaluation).  The claim says `Section.submit`
returns False whenever some pageblock that needs_submit reports
redirect_to_self_on_submit True.  On a page whose last submittable block
does not redirect, the code returns True even though an earlier block
redirects: `proceed` is overwritten by every submittable block carrying
the attribute, so only the last one counts (the source marks this
"semi bug here?" itself). -/
theorem claim_C1_bug_eval :
    (∃ p ∈ [ exC1blockA, exC1blockB ],
        p.has_needs_submit = true ∧ p.needs_submit = true ∧
        p.has_redirect = true ∧ p.redirect_to_self = true) ∧
    (Section.submit [ exC1blockA, exC1blockB ] []).1 = true := by
  constructor
  · exact ⟨exC1blockA, by decide, rfl, rfl, rfl, rfl⟩
  · rfl

/-- Claim C2 (code bug evaluation).  The claim says
`Hierarchy.from_dict (h.as_dict())` rebuilds the hierarchy whenever the
block types are available and support create_from_dict.  In exactly that
situation the code raises
`TypeError: append_pageblock() got an unexpected keyword argument
'css_extra'`: `add_pageblock_from_dict` passes `css_extra=` to
`append_pageblock`, whose signature is `(self, label, content_object)`. -/
theorem claim_C2_bug_eval :
    (∃ c ∈ exC2avail, c.has_create_from_dict = true ∧
        ∃ b ∈ blocksOf exC2root, b.block_type = c.display_name) ∧
    hierRoundTrip exC2avail exC2hier =
      Except.error (PyError.typeError ( "css_extra".toList)) := by
  constructor
  · exact ⟨⟨ "text block".toList, true ⟩, by decide, rfl, by decide⟩
  · rfl

/-- Claim C8: `Hierarchy.get_section_from_path` raises Http404 exactly
when `find_section_from_path` returns None, and otherwise returns the
resolved section. -/
theorem claim_C8 (root : SectionTree) (path : PyStr) :
    (Hierarchy.get_section_from_path root path = .error PyError.http404 ↔
      Hierarchy.find_section_from_path root path = none) ∧
    ∀ found : SectionTree,
      Hierarchy.find_section_from_path root path = some found →
      Hierarchy.get_section_from_path root path = .ok found := by
  rcases hfs : Hierarchy.find_section_from_path root path with _ | s <;>
    simp [Hierarchy.get_section_from_path, hfs]

/-- Witness for C8 at a concrete tree and path. -/
theorem claim_C8_witness :
    Hierarchy.get_section_from_path exC8tree ( "b".toList) =
      .ok (.node ⟨2, "B".toList, "b".toList, 2⟩ [] []) :=
  (claim_C8 exC8tree ( "b".toList)).2 _ rfl

/-- Counterexample for C9: the normalization equation fails for a path
that itself already ends in "/".  With a root whose only child has slug
"a", the path "a/" resolves to that child, but "a//" (that is,
"a/" + "/") does not resolve: only one trailing slash is stripped. -/
theorem claim_C9_counterexample :
    Hierarchy.find_section_from_path exC9tree ( "a/".toList ++ [ '/' ]) ≠
      Hierarchy.find_section_from_path exC9tree ( "a/".toList) := by
  intro hcontra
  have h1 : Hierarchy.find_section_from_path exC9tree ( "a/".toList ++ [ '/' ]) = none := rfl
  have h2 : Hierarchy.find_section_from_path exC9tree ( "a/".toList) =
      some (.node ⟨2, "A".toList, "a".toList, 2⟩ [] []) := rfl
  rw [h1, h2] at hcontra
  exact Option.noConfusion hcontra

/-- Claim C9 as amended: appending a slash leaves the resolution
unchanged for every path that does not already end in a slash, and the
empty path and the bare slash both resolve to the root. -/
theorem claim_C9_amended (root : SectionTree) (p : PyStr)
    (hp : p.getLast? ≠ some '/') :
    Hierarchy.find_section_from_path root (p ++ [ '/' ]) =
      Hierarchy.find_section_from_path root p ∧
    Hierarchy.find_section_from_path root [] = some root ∧
    Hierarchy.find_section_from_path root [ '/' ] = some root := by
  refine ⟨?_, rfl, rfl⟩
  simp only [Hierarchy.find_section_from_path, List.getLast?_concat,
    List.dropLast_concat, if_pos rfl, if_neg hp]
  simp

/-- Witness for the amended C9 at a concrete tree and path. -/
theorem claim_C9_amended_witness :
    ( "a".toList : PyStr).getLast? ≠ some '/' ∧
    Hierarchy.find_section_from_path exC9tree ( "a".toList ++ [ '/' ]) =
      Hierarchy.find_section_from_path exC9tree ( "a".toList) :=
  ⟨by decide, (claim_C9_amended exC9tree ( "a".toList) (by decide)).1⟩

/-- Claim C10: an anonymous user gets "/" with the UserLocation table
untouched; an authenticated user with no existing row gets "/" and
exactly one fresh default row appended, all other rows unchanged. -/
theorem claim_C10 (st : List UserLocation) (u : PyUser) (hid : Nat) :
    (u.is_anonymous = true →
      Hierarchy.get_user_location st u hid = ( "/".toList, st)) ∧
    (u.is_anonymous = false →
      st.find? (ulMatch u.id hid) = none →
      Hierarchy.get_user_location st u hid =
        ( "/".toList, st ++ [ ⟨u.id, hid, "/".toList⟩ ])) := by
  constructor
  · intro ha
    simp [Hierarchy.get_user_location, ha]
  · intro ha hn
    simp [Hierarchy.get_user_location, ha, getOrCreateRow, hn]

/-- Witness for C10: one anonymous and one fresh authenticated user. -/
theorem claim_C10_witness :
    Hierarchy.get_user_location [] ⟨7, true⟩ 1 = ( "/".toList, []) ∧
    Hierarchy.get_user_location [] ⟨8, false⟩ 1 =
      ( "/".toList, [ ⟨8, 1, "/".toList⟩ ]) :=
  ⟨(claim_C10 [] ⟨7, true⟩ 1).1 rfl, (claim_C10 [] ⟨8, false⟩ 1).2 rfl rfl⟩

/-- The renumbering loop assigns consecutive ordinalities from its
starting counter. -/
theorem renumberFrom_map_ord (i : Nat) (l : List PB) :
    (renumberFrom i l).map PB.ordinality = List.range' i l.length := by
  induction l generalizing i with
  | nil => rfl
  | cons b bs ih => simp [renumberFrom, List.range'_succ, ih]

/-- The renumbering loop keeps the number of rows. -/
theorem length_renumberFrom (i : Nat) (l : List PB) :
    (renumberFrom i l).length = l.length := by
  induction l generalizing i with
  | nil => rfl
  | cons b bs ih => simp [renumberFrom, ih]

/-- Sorted insertion adds one row. -/
theorem length_insertByOrd (b : PB) (l : List PB) :
    (insertByOrd b l).length = l.length + 1 := by
  induction l with
  | nil => rfl
  | cons c cs ih =>
    by_cases h : b.ordinality ≤ c.ordinality <;> simp [insertByOrd, h, ih]

/-- The ordinality ordering of `pageblock_set.all()` keeps the number of
rows. -/
theorem length_pageblockSetAll (l : List PB) :
    (pageblockSetAll l).length = l.length := by
  induction l with
  | nil => rfl
  | cons b bs ih => simp [pageblockSetAll, length_insertByOrd, ih]

/-- `Section.renumber_pageblocks` always leaves the section's rows with
ordinalities exactly 1..N. -/
theorem contiguous_renumber (l : List PB) :
    contiguousOrds (Section.renumber_pageblocks l) := by
  unfold contiguousOrds Section.renumber_pageblocks
  rw [renumberFrom_map_ord, length_renumberFrom, length_pageblockSetAll]

/-- Claim C3: `append_pageblock` gives the new row ordinality count+1
and keeps the 1..N invariant; `PageBlock.delete` (delete plus renumber)
restores the invariant on the remaining rows. -/
theorem claim_C3 (l : List PB) (bid did : Nat) (lbl : PyStr)
    (hc : contiguousOrds l) :
    (Section.append_pageblock l bid lbl).getLast? = some ⟨bid, l.length + 1, lbl⟩ ∧
    contiguousOrds (Section.append_pageblock l bid lbl) ∧
    contiguousOrds (PageBlock.delete did l) := by
  refine ⟨List.getLast?_concat l, ?_, contiguous_renumber _⟩
  unfold contiguousOrds at hc
  unfold contiguousOrds Section.append_pageblock
  have hlen : (l ++ [ (⟨bid, l.length + 1, lbl⟩ : PB) ]).length = l.length + 1 := by
    simp
  rw [hlen, List.map_append, List.range'_1_concat]
  have : ([ (⟨bid, l.length + 1, lbl⟩ : PB) ].map PB.ordinality).Perm [ 1 + l.length ] := by
    simp [Nat.add_comm]
  exact hc.append this

/-- Witness for C3 at a concrete two-row section. -/
theorem claim_C3_witness :
    contiguousOrds [ ⟨10, 1, "x".toList⟩, ⟨11, 2, "y".toList⟩ ] ∧
    contiguousOrds
      (Section.append_pageblock [ ⟨10, 1, "x".toList⟩, ⟨11, 2, "y".toList⟩ ] 12 ( "z".toList)) ∧
    contiguousOrds (PageBlock.delete 10 [ ⟨10, 1, "x".toList⟩, ⟨11, 2, "y".toList⟩ ]) :=
  ⟨by decide,
   (claim_C3 [ ⟨10, 1, "x".toList⟩, ⟨11, 2, "y".toList⟩ ] 12 10 ( "z".toList) (by decide)).2.1,
   (claim_C3 [ ⟨10, 1, "x".toList⟩, ⟨11, 2, "y".toList⟩ ] 12 10 ( "z".toList) (by decide)).2.2⟩

/-- The recursion of `get_absolute_url` concatenates the base_url with
the slugs of the ancestors (top-down) and the section itself, each
followed by a slash. -/
theorem url_is_joined_slugs (base : PyStr) (chain : List SecData) :
    Section.get_absolute_url base chain =
      base ++ ((chain.reverse.map (fun d => d.slug ++ [ '/' ])).flatten) := by
  induction chain with
  | nil => simp [Section.get_absolute_url]
  | cons d rest ih => simp [Section.get_absolute_url, ih]

/-- Claim C6: under the root-labeling invariant, `get_root` hands back a
root labeled "Root" with empty slug (creating it when absent), and
`get_absolute_url` is the base_url followed by each non-root ancestor
slug and the section's own slug, each with a trailing slash; the root's
own url is the bare base_url. -/
theorem claim_C6 (forest : List SectionTree) (hinv : RootInv forest)
    (r : SectionTree) (forest2 : List SectionTree)
    (hok : Hierarchy.get_root forest = .ok (r, forest2))
    (base : PyStr) (chain : List SecData) :
    (rootData r).label = "Root".toList ∧ (rootData r).slug = [] ∧
    Section.get_absolute_url base [] = base ∧
    Section.get_absolute_url base chain =
      base ++ ((chain.reverse.map (fun d => d.slug ++ [ '/' ])).flatten) := by
  have hroot : (rootData r).label = "Root".toList ∧ (rootData r).slug = [] := by
    unfold Hierarchy.get_root at hok
    split at hok
    · rw [Except.ok.injEq, Prod.mk.injEq] at hok
      rw [← hok.1]
      exact ⟨rfl, rfl⟩
    · split at hok
      · next t heq =>
        rw [Except.ok.injEq, Prod.mk.injEq] at hok
        have htmem : t ∈ forest := List.mem_of_find?_eq_some heq
        have hpred := List.find?_some heq
        rw [List.any_eq_true] at hpred
        obtain ⟨d, hdmem, hd⟩ := hpred
        rw [beq_iff_eq] at hd
        obtain ⟨hre, hslug⟩ := hinv t htmem d hdmem hd
        rw [← hok.1, hre]
        exact ⟨hd, hslug⟩
      · exact absurd hok (by simp)
    · exact absurd hok (by simp)
  exact ⟨hroot.1, hroot.2, rfl, url_is_joined_slugs base chain⟩

/-- Witness for C6: a concrete one-root forest and a two-step ancestor
chain. -/
theorem claim_C6_witness :
    RootInv exC6forest ∧
    Section.get_absolute_url ( "/base/".toList)
        [ ⟨3, "B".toList, "b".toList, 3⟩, ⟨2, "A".toList, "a".toList, 2⟩ ] =
      "/base/a/b/".toList :=
  ⟨by decide,
   (claim_C6 exC6forest (by decide) (.node ⟨1, "Root".toList, [], 1⟩ [] [])
      exC6forest rfl ( "/base/".toList)
      [ ⟨3, "B".toList, "b".toList, 3⟩, ⟨2, "A".toList, "a".toList, 2⟩ ]).2.2.2⟩

/-- `get_or_create` keeps the key-uniqueness invariant whenever the
lookup predicate matches exactly the key of the created row. -/
theorem getOrCreateRow_pairwise {α β : Type} (key : α → β) (p : α → Bool)
    (new : α) (l : List α)
    (hp : ∀ a, p a = true ↔ key a = key new)
    (h : List.Pairwise (fun a b => key a ≠ key b) l) :
    List.Pairwise (fun a b => key a ≠ key b) (getOrCreateRow p new l).2 := by
  unfold getOrCreateRow
  cases hf : l.find? p with
  | some r => exact h
  | none =>
    rw [List.find?_eq_none] at hf
    rw [List.pairwise_append]
    refine ⟨h, List.pairwise_singleton _ _, ?_⟩
    intro a ha b hb
    rw [List.mem_singleton] at hb
    subst hb
    intro hkey
    exact hf a ha ((hp a).mpr hkey)

/-- `get_or_create` never removes a key from the table. -/
theorem getOrCreateRow_keys_kept {α β : Type} (key : α → β) (p : α → Bool)
    (new : α) (l : List α) :
    ∀ r ∈ l, ∃ r2 ∈ (getOrCreateRow p new l).2, key r2 = key r := by
  intro r hr
  unfold getOrCreateRow
  cases l.find? p with
  | some r0 => exact ⟨r, hr, rfl⟩
  | none => exact ⟨r, List.mem_append_left _ hr, rfl⟩

/-- Every row of a `save`-updated table is a row of the old table, up to
the one updated field. -/
theorem setFirstMatching_from {α β : Type} (key : α → β) (p : α → Bool)
    (f : α → α) (hf : ∀ a, key (f a) = key a) (l : List α) :
    ∀ b ∈ setFirstMatching p f l, ∃ a ∈ l, key b = key a := by
  induction l with
  | nil => intro b hb; exact absurd hb (by simp [setFirstMatching])
  | cons r rs ih =>
    intro b hb
    unfold setFirstMatching at hb
    by_cases hr : p r = true
    · rw [if_pos hr] at hb
      rcases List.mem_cons.mp hb with hb | hb
      · exact ⟨r, List.mem_cons_self _ _, by rw [hb, hf]⟩
      · exact ⟨b, List.mem_cons_of_mem _ hb, rfl⟩
    · rw [if_neg hr] at hb
      rcases List.mem_cons.mp hb with hb | hb
      · exact ⟨r, List.mem_cons_self _ _, by rw [hb]⟩
      · obtain ⟨a, ha, hk⟩ := ih b hb
        exact ⟨a, List.mem_cons_of_mem _ ha, hk⟩

/-- A `save` update keeps the key-uniqueness invariant when the update
does not change the key. -/
theorem setFirstMatching_pairwise {α β : Type} (key : α → β) (p : α → Bool)
    (f : α → α) (hf : ∀ a, key (f a) = key a) (l : List α)
    (h : List.Pairwise (fun a b => key a ≠ key b) l) :
    List.Pairwise (fun a b => key a ≠ key b) (setFirstMatching p f l) := by
  induction l with
  | nil => exact h
  | cons r rs ih =>
    rw [List.pairwise_cons] at h
    obtain ⟨hr, hrs⟩ := h
    unfold setFirstMatching
    by_cases hp : p r = true
    · rw [if_pos hp, List.pairwise_cons]
      exact ⟨fun b hb => by rw [hf]; exact hr b hb, hrs⟩
    · rw [if_neg hp, List.pairwise_cons]
      refine ⟨?_, ih hrs⟩
      intro b hb
      obtain ⟨a, ha, hk⟩ := setFirstMatching_from key p f hf rs b hb
      rw [hk]
      exact hr a ha

/-- A `save` update never removes a key from the table. -/
theorem setFirstMatching_keys_kept {α β : Type} (key : α → β) (p : α → Bool)
    (f : α → α) (hf : ∀ a, key (f a) = key a) (l : List α) :
    ∀ a ∈ l, ∃ b ∈ setFirstMatching p f l, key b = key a := by
  induction l with
  | nil => intro a ha; exact absurd ha (List.not_mem_nil a)
  | cons r rs ih =>
    intro a ha
    unfold setFirstMatching
    by_cases hp : p r = true
    · rw [if_pos hp]
      rcases List.mem_cons.mp ha with ha | ha
      · exact ⟨f r, List.mem_cons_self _ _, by rw [hf, ha]⟩
      · exact ⟨a, List.mem_cons_of_mem _ ha, rfl⟩
    · rw [if_neg hp]
      rcases List.mem_cons.mp ha with ha | ha
      · exact ⟨r, List.mem_cons_self _ _, by rw [ha]⟩
      · obtain ⟨b, hb, hk⟩ := ih a ha
        exact ⟨b, List.mem_cons_of_mem _ hb, hk⟩

/-- The `ulMatch` lookup matches exactly the rows keyed like the default
row `get_or_create` would create. -/
theorem ulMatch_iff_key (uid hid : Nat) (path : PyStr) :
    ∀ r : UserLocation, ulMatch uid hid r = true ↔
      ulKey r = ulKey ⟨uid, hid, path⟩ := by
  intro r
  simp [ulMatch, ulKey, Prod.mk.injEq, Bool.and_eq_true, beq_iff_eq]

/-- The `upvMatch` lookup matches exactly the rows keyed like the
default row `get_or_create` would create. -/
theorem upvMatch_iff_key (uid sid : Nat) (status : PyStr) :
    ∀ r : UserPageVisit, upvMatch uid sid r = true ↔
      upvKey r = upvKey ⟨uid, sid, status⟩ := by
  intro r
  simp [upvMatch, upvKey, Prod.mk.injEq, Bool.and_eq_true, beq_iff_eq]

/-- Claim C7: `get_user_location`, `user_visit` and `user_pagevisit`
upsert and never delete — each preserves at-most-one-row-per-key and
keeps every key that was present. -/
theorem claim_C7 (st : List UserLocation) (stv : List UserPageVisit)
    (u : PyUser) (uid hid sid : Nat) (path status : PyStr)
    (h1 : ulAtMostOne st) (h2 : upvAtMostOne stv) :
    (ulAtMostOne (Hierarchy.get_user_location st u hid).2 ∧
      ulKeysKept st (Hierarchy.get_user_location st u hid).2) ∧
    (ulAtMostOne (Hierarchy.user_visit st uid hid path) ∧
      ulKeysKept st (Hierarchy.user_visit st uid hid path)) ∧
    (upvAtMostOne (Section.user_pagevisit stv uid sid status) ∧
      upvKeysKept stv (Section.user_pagevisit stv uid sid status)) := by
  refine ⟨?_, ?_, ?_⟩
  · unfold Hierarchy.get_user_location
    by_cases ha : u.is_anonymous = true
    · rw [if_pos ha]
      exact ⟨h1, fun r hr => ⟨r, hr, rfl⟩⟩
    · rw [if_neg ha]
      exact ⟨getOrCreateRow_pairwise ulKey _ _ st
          (ulMatch_iff_key u.id hid ( "/".toList)) h1,
        getOrCreateRow_keys_kept ulKey _ _ st⟩
  · unfold Hierarchy.user_visit
    constructor
    · exact setFirstMatching_pairwise ulKey (ulMatch uid hid)
        (fun r0 => { r0 with path := path }) (fun a => rfl) _
        (getOrCreateRow_pairwise ulKey _ _ st
          (ulMatch_iff_key uid hid ( "/".toList)) h1)
    · intro r hr
      obtain ⟨r2, hr2, hk2⟩ := getOrCreateRow_keys_kept ulKey
        (ulMatch uid hid) ⟨uid, hid, "/".toList⟩ st r hr
      obtain ⟨r3, hr3, hk3⟩ := setFirstMatching_keys_kept ulKey
        (ulMatch uid hid) (fun r0 => { r0 with path := path }) (fun a => rfl)
        _ r2 hr2
      exact ⟨r3, hr3, by rw [hk3, hk2]⟩
  · unfold Section.user_pagevisit
    constructor
    · exact setFirstMatching_pairwise upvKey (upvMatch uid sid)
        (fun r0 => { r0 with status := status }) (fun a => rfl) _
        (getOrCreateRow_pairwise upvKey _ _ stv
          (upvMatch_iff_key uid sid ( "incomplete".toList)) h2)
    · intro r hr
      obtain ⟨r2, hr2, hk2⟩ := getOrCreateRow_keys_kept upvKey
        (upvMatch uid sid) ⟨uid, sid, "incomplete".toList⟩ stv r hr
      obtain ⟨r3, hr3, hk3⟩ := setFirstMatching_keys_kept upvKey
        (upvMatch uid sid) (fun r0 => { r0 with status := status }) (fun a => rfl)
        _ r2 hr2
      exact ⟨r3, hr3, by rw [hk3, hk2]⟩

/-- Witness for C7 at concrete single-row tables. -/
theorem claim_C7_witness :
    ulAtMostOne [ (⟨1, 1, "/a/".toList⟩ : UserLocation) ] ∧
    upvAtMostOne [ (⟨1, 5, "complete".toList⟩ : UserPageVisit) ] ∧
    ulAtMostOne (Hierarchy.user_visit [ ⟨1, 1, "/a/".toList⟩ ] 1 1 ( "/b/".toList)) ∧
    ulKeysKept [ ⟨1, 1, "/a/".toList⟩ ]
      (Hierarchy.user_visit [ ⟨1, 1, "/a/".toList⟩ ] 1 1 ( "/b/".toList)) :=
  ⟨by decide, by decide,
   (claim_C7 [ ⟨1, 1, "/a/".toList⟩ ] [ ⟨1, 5, "complete".toList⟩ ]
      ⟨1, false⟩ 1 1 5 ( "/b/".toList) ( "incomplete".toList)
      (by decide) (by decide)).2.1.1,
   (claim_C7 [ ⟨1, 1, "/a/".toList⟩ ] [ ⟨1, 5, "complete".toList⟩ ]
      ⟨1, false⟩ 1 1 5 ( "/b/".toList) ( "incomplete".toList)
      (by decide) (by decide)).2.1.2⟩

/-- The enumerate loop finds the first index whose entry carries the
sought id, counting from its starting value. -/
theorem scanForId_from (selfId : Nat) (t : List SecData) (i k : Nat) (sd : SecData)
    (hi : t[i]? = some sd) (hsd : sd.id = selfId)
    (hmin : ∀ j, j < i → ∀ b, t[j]? = some b → b.id ≠ selfId) :
    scanForId selfId k t = some (k + i) := by
  induction t generalizing i k with
  | nil => exact absurd hi (by simp)
  | cons d rest ih =>
    cases i with
    | zero =>
      rw [List.getElem?_cons_zero, Option.some.injEq] at hi
      subst hi
      simp [scanForId, hsd]
    | succ n =>
      have hd : d.id ≠ selfId := hmin 0 (Nat.succ_pos n) d List.getElem?_cons_zero
      rw [List.getElem?_cons_succ] at hi
      have hmin2 : ∀ j, j < n → ∀ b, rest[j]? = some b → b.id ≠ selfId := by
        intro j hj b hb
        exact hmin (j + 1) (Nat.succ_lt_succ hj) b
          (by rw [List.getElem?_cons_succ]; exact hb)
      have hrec := ih n (k + 1) hi hmin2
      rw [scanForId, if_neg hd, hrec, Option.some.injEq]
      omega

/-- In a traversal with pairwise distinct ids, entries at distinct
positions carry distinct ids. -/
theorem nodup_ids_ne (t : List SecData) (hnd : (t.map SecData.id).Nodup)
    {i j : Nat} {a b : SecData} (ha : t[i]? = some a) (hb : t[j]? = some b)
    (hne : i ≠ j) : a.id ≠ b.id := by
  have key : ∀ {i2 j2 : Nat} {a2 b2 : SecData}, i2 < j2 → t[i2]? = some a2 →
      t[j2]? = some b2 → a2.id ≠ b2.id := by
    intro i2 j2 a2 b2 hij ha2 hb2
    have hjl : j2 < t.length := by
      by_contra h
      rw [List.getElem?_eq_none (Nat.le_of_not_lt h)] at hb2
      exact Option.noConfusion hb2
    have hmap := (List.nodup_iff_getElem?_ne_getElem?.mp hnd) i2 j2 hij
      (by simpa using hjl)
    intro heq
    apply hmap
    rw [List.getElem?_map, List.getElem?_map, ha2, hb2]
    simp [heq]
  rcases Nat.lt_or_ge i j with h | h
  · exact key h ha hb
  · exact (key (Nat.lt_of_le_of_ne h (Ne.symm hne)) hb ha).symm

/-- In a depth-well-formed forest rooted at depth `n`, every traversal
entry has depth at least `n`. -/
theorem wfDepthList_ge (n : Nat) (ts : List SectionTree)
    (h : wfDepthList n ts = true) : ∀ x ∈ dfsList ts, n ≤ x.depth := by
  match ts with
  | [] =>
    intro x hx
    exact absurd hx (by simp [dfsList])
  | .node d bs cs :: rest =>
    intro x hx
    rw [wfDepthList, Bool.and_eq_true, wfDepth, Bool.and_eq_true] at h
    obtain ⟨⟨hd, hcs⟩, hrest⟩ := h
    rw [dfsList, dfs] at hx
    rcases List.mem_append.mp hx with hx | hx
    · rcases List.mem_cons.mp hx with hx | hx
      · subst hx
        rw [beq_iff_eq] at hd
        omega
      · have := wfDepthList_ge (n + 1) cs hcs x hx
        omega
    · exact wfDepthList_ge n rest hrest x hx

/-- In a depth-well-formed tree, no traversal entry after the head is a
root (its depth is at least 2). -/
theorem dfs_tail_not_root (root : SectionTree) (hwf : wfDepth 1 root = true)
    (j : Nat) (hj : 1 ≤ j) (prev : SecData)
    (hprev : (dfs root)[j]? = some prev) : prev.is_root = false := by
  match root with
  | .node d bs cs =>
    rw [wfDepth, Bool.and_eq_true] at hwf
    obtain ⟨hd, hcs⟩ := hwf
    rw [dfs] at hprev
    cases j with
    | zero => omega
    | succ m =>
      rw [List.getElem?_cons_succ] at hprev
      have hmem : prev ∈ dfsList cs := List.getElem?_mem hprev
      have h2 := wfDepthList_ge 2 cs hcs prev hmem
      simp only [SecData.is_root, beq_eq_false_iff_ne, ne_eq]
      omega

/-- Claim C5: `get_next` returns the traversal entry after `self` (None
past the end), `get_previous` the entry before `self` unless that entry
is the root or `self` has no predecessor. -/
theorem claim_C5 (root : SectionTree) (i : Nat) (sd : SecData)
    (hwf : wfDepth 1 root = true)
    (hnd : ((dfs root).map SecData.id).Nodup)
    (hi : (dfs root)[i]? = some sd) :
    Section.get_next root sd.id = (dfs root)[i + 1]? ∧
    Section.get_previous root sd.id =
      (if 2 ≤ i then (dfs root)[i - 1]? else none) := by
  have hilen : i < (dfs root).length := by
    by_contra h
    rw [List.getElem?_eq_none (Nat.le_of_not_lt h)] at hi
    exact Option.noConfusion hi
  have hmin : ∀ j, j < i → ∀ b, (dfs root)[j]? = some b → b.id ≠ sd.id := by
    intro j hj b hb
    exact nodup_ids_ne (dfs root) hnd hb hi (by omega)
  have hscan : scanForId sd.id 0 (dfs root) = some i := by
    have := scanForId_from sd.id (dfs root) i 0 sd hi rfl hmin
    simpa using this
  constructor
  · simp only [Section.get_next, hscan]
    by_cases hlt : i < (dfs root).length - 1
    · rw [if_pos hlt]
    · rw [if_neg hlt, Eq.comm]
      exact List.getElem?_eq_none (by omega)
  · simp only [Section.get_previous, hscan]
    rcases Nat.lt_or_ge i 2 with hi2 | hi2
    · rw [if_neg (by omega)]
      cases i with
      | zero =>
        have h0 : (0 : Nat) - 1 = 0 := rfl
        rw [h0, hi]
        simp
      | succ n =>
        have hn : n = 0 := by omega
        subst hn
        rw [Nat.add_sub_cancel]
        rcases h0 : (dfs root)[0]? with _ | x
        all_goals simp
    · rw [if_pos hi2]
      rcases hprev : (dfs root)[i - 1]? with _ | prev
      · rfl
      · have hnr : prev.is_root = false :=
          dfs_tail_not_root root hwf (i - 1) (by omega) prev hprev
        have hii : 1 < i := by omega
        simp [hii, hnr]

/-- Witness for C5: in the concrete tree, section 2 at traversal index 1
has section 4 next and no previous (its predecessor is the root). -/
theorem claim_C5_witness :
    wfDepth 1 exC5tree = true ∧
    ((dfs exC5tree).map SecData.id).Nodup ∧
    Section.get_next exC5tree 2 = some ⟨4, "Deep".toList, "deep".toList, 3⟩ ∧
    Section.get_previous exC5tree 2 = none := by
  refine ⟨by decide, by decide, ?_, ?_⟩
  · exact (claim_C5 exC5tree 1 ⟨2, "One".toList, "one".toList, 2⟩
      (by decide) (by decide) rfl).1.trans rfl
  · exact (claim_C5 exC5tree 1 ⟨2, "One".toList, "one".toList, 2⟩
      (by decide) (by decide) rfl).2.trans rfl

/-- A key that carries the key head is exactly the key head followed by
its stripped remainder. -/
theorem isPrefixOf_append_drop {pfx k : PyStr} (h : pfx.isPrefixOf k = true) :
    pfx ++ k.drop pfx.length = k := by
  rw [List.isPrefixOf_iff_prefix] at h
  exact List.prefix_iff_eq_append.mp h

/-- Assigning an absent key to a Python dict appends the binding. -/
theorem pyDictSet_of_not_mem (d : List (PyStr × SubmitVal)) (k : PyStr)
    (v : SubmitVal) (h : ∀ e ∈ d, e.1 ≠ k) :
    pyDictSet d k v = d ++ [ (k, v) ] := by
  have hany : d.any (fun e => e.1 == k) = false := by
    rw [List.any_eq_false]
    intro e he
    simpa using h e he
  unfold pyDictSet
  rw [hany]
  simp

/-- The dict-building loop of `Section.submit`, started from any
accumulator whose keys avoid the stripped keys still to come, appends
exactly the declaratively filtered entries. -/
theorem buildData_from (bid : Nat) (rd : RequestData)
    (acc : List (PyStr × SubmitVal)) (hnd : (rd.map Prod.fst).Nodup)
    (hdisj : ∀ kv ∈ rd, (pageblockKeyHead bid).isPrefixOf kv.1 = true →
      ∀ e ∈ acc, e.1 ≠ kv.1.drop (pageblockKeyHead bid).length) :
    rd.foldl (dictStep bid) acc = acc ++ submitDataSpec bid rd := by
  induction rd generalizing acc with
  | nil => simp [submitDataSpec]
  | cons kv rest ih =>
    rw [List.map_cons, List.nodup_cons] at hnd
    obtain ⟨hk1, hndrest⟩ := hnd
    rw [List.foldl_cons]
    by_cases hpre : (pageblockKeyHead bid).isPrefixOf kv.1 = true
    · have hstep : dictStep bid acc kv =
          acc ++ [ (kv.1.drop (pageblockKeyHead bid).length,
            if kv.2.length = 1 then SubmitVal.single (qdGetItem kv.2)
            else SubmitVal.multi kv.2) ] := by
        unfold dictStep
        rw [if_pos hpre]
        exact pyDictSet_of_not_mem _ _ _ (hdisj kv (List.mem_cons_self _ _) hpre)
      have hdisj2 : ∀ kv2 ∈ rest,
          (pageblockKeyHead bid).isPrefixOf kv2.1 = true →
          ∀ e ∈ acc ++ [ (kv.1.drop (pageblockKeyHead bid).length,
            if kv.2.length = 1 then SubmitVal.single (qdGetItem kv.2)
            else SubmitVal.multi kv.2) ],
          e.1 ≠ kv2.1.drop (pageblockKeyHead bid).length := by
        intro kv2 hkv2 hpre2 e he
        rcases List.mem_append.mp he with he | he
        · exact hdisj kv2 (List.mem_cons_of_mem _ hkv2) hpre2 e he
        · rw [List.mem_singleton] at he
          subst he
          intro heq
          simp only at heq
          have hkeys : kv.1 = kv2.1 := by
            rw [← isPrefixOf_append_drop hpre, ← isPrefixOf_append_drop hpre2, heq]
          exact hk1 (hkeys ▸ List.mem_map_of_mem Prod.fst hkv2)
      rw [hstep, ih _ hndrest hdisj2]
      have hspec : submitDataSpec bid (kv :: rest) =
          (kv.1.drop (pageblockKeyHead bid).length,
            if kv.2.length = 1 then SubmitVal.single (qdGetItem kv.2)
            else SubmitVal.multi kv.2) :: submitDataSpec bid rest := by
        unfold submitDataSpec
        rw [List.filterMap_cons]
        rw [if_pos hpre]
      rw [hspec]
      simp [List.append_assoc]
    · have hstep : dictStep bid acc kv = acc := by
        unfold dictStep
        rw [if_neg hpre]
      have hspec : submitDataSpec bid (kv :: rest) = submitDataSpec bid rest := by
        unfold submitDataSpec
        rw [List.filterMap_cons, if_neg hpre]
      rw [hstep, hspec]
      refine ih _ hndrest ?_
      intro kv2 hkv2 hpre2 e he
      exact hdisj kv2 (List.mem_cons_of_mem _ hkv2) hpre2 e he

/-- The per-block dict built by `Section.submit` is exactly the
declaratively filtered request, provided the request keys are distinct
(as the keys of a form-encoded payload are). -/
theorem buildBlockData_eq_spec (bid : Nat) (rd : RequestData)
    (hnd : (rd.map Prod.fst).Nodup) :
    buildBlockData bid rd = submitDataSpec bid rd := by
  have h := buildData_from bid rd [] hnd
    (by intro kv hkv hpre e he; exact absurd he (List.not_mem_nil e))
  simpa using h

/-- The block loop of `Section.submit` calls `submit` on exactly the
blocks that have `needs_submit` returning True, in order, with the dict
the inner loop builds. -/
theorem submit_calls_from (rd : RequestData) (blocks : List Block) (pr : Bool)
    (acc : List (Nat × List (PyStr × SubmitVal))) :
    (blocks.foldl (submitStep rd) (pr, acc)).2 =
      acc ++ (blocks.filter (fun p => p.has_needs_submit && p.needs_submit)).map
        (fun p => (p.id, buildBlockData p.id rd)) := by
  induction blocks generalizing pr acc with
  | nil => simp
  | cons p ps ih =>
    rw [List.foldl_cons]
    by_cases hp : (p.has_needs_submit && p.needs_submit) = true
    · have hstep : submitStep rd (pr, acc) p =
          ((if p.has_redirect then !p.redirect_to_self else pr),
           acc ++ [ (p.id, buildBlockData p.id rd) ]) := by
        unfold submitStep
        rw [if_pos hp]
      rw [hstep, ih, List.filter_cons, if_pos hp, List.map_cons]
      simp [List.append_assoc]
    · have hstep : submitStep rd (pr, acc) p = (pr, acc) := by
        unfold submitStep
        rw [if_neg hp]
      rw [hstep, ih, List.filter_cons, if_neg hp]

/-- Claim C4: during `Section.submit`, each block with `needs_submit`
True receives exactly the request entries keyed `pageblock-<id>-...`
with the key head stripped, single values as scalars and several values
as lists; blocks without `needs_submit` (or whose `needs_submit` is
False) are never submitted. -/
theorem claim_C4 (blocks : List Block) (rd : RequestData)
    (hnd : (rd.map Prod.fst).Nodup) :
    (Section.submit blocks rd).2 =
      (blocks.filter (fun p => p.has_needs_submit && p.needs_submit)).map
        (fun p => (p.id, submitDataSpec p.id rd)) := by
  unfold Section.submit
  rw [submit_calls_from]
  have hfun : ∀ bid, buildBlockData bid rd = submitDataSpec bid rd :=
    fun bid => buildBlockData_eq_spec bid rd hnd
  simp [hfun]

/-- Witness for C4: two blocks, one submittable, with a single-valued
and a multi-valued request entry for the submittable one and an entry
for the other. -/
theorem claim_C4_witness :
    (([ ( "pageblock-5-choice".toList, [ "x".toList ]),
        ( "pageblock-5-tags".toList, [ "a".toList, "b".toList ]),
        ( "pageblock-6-z".toList, [ "q".toList ]) ] : RequestData).map Prod.fst).Nodup ∧
    (Section.submit
        [ ⟨5, true, true, false, false⟩, ⟨6, true, false, false, false⟩ ]
        [ ( "pageblock-5-choice".toList, [ "x".toList ]),
          ( "pageblock-5-tags".toList, [ "a".toList, "b".toList ]),
          ( "pageblock-6-z".toList, [ "q".toList ]) ]).2 =
      (([ ⟨5, true, true, false, false⟩, ⟨6, true, false, false, false⟩ ] : List Block).filter
          (fun p => p.has_needs_submit && p.needs_submit)).map
        (fun p => (p.id, submitDataSpec p.id
          [ ( "pageblock-5-choice".toList, [ "x".toList ]),
            ( "pageblock-5-tags".toList, [ "a".toList, "b".toList ]),
            ( "pageblock-6-z".toList, [ "q".toList ]) ])) :=
  ⟨by decide, claim_C4 _ _ (by decide)⟩
